import Mathlib

/-!
Verification development for the path-addressable document engine of
`function-msgraph` (file `fn.go` of the repository, given here as
`src/unnamed/part_003`).  Go's dynamic `map[string]interface{}` documents are
embedded as a closed JSON-like value type `JVal`; Go maps become association
lists with unique-key lookup semantics (`jfind` returns the value of the
first matching key, `jset` replaces in place or appends, mirroring map
update).  Every function below is translated from the Go source named in its
doc comment.
-/

/-- A dynamic value as stored in the Go `map[string]interface{}` documents:
null, booleans, numbers, strings, `[]interface{}` arrays and nested maps. -/
inductive JVal where
  | null : JVal
  | bool (b : Bool) : JVal
  | num (n : Int) : JVal
  | str (s : String) : JVal
  | arr (xs : List JVal) : JVal
  | obj (fields : List (String × JVal)) : JVal

/-- A Go `map[string]interface{}` document root. -/
abbrev JMap := List (String × JVal)

/-- Lookup of a key in a document map (Go map indexing `m[k]`). -/
def jfind : JMap → String → Option JVal
  | [], _ => none
  | (k, v) :: rest, key => if k = key then some v else jfind rest key

/-- Update of a key in a document map (Go map assignment `m[k] = v`). -/
def jset : JMap → String → JVal → JMap
  | [], key, v => [(key, v)]
  | (k, w) :: rest, key, v =>
    if k = key then (key, v) :: rest else (k, w) :: jset rest key v

/-- Character class `[^\[\]]` of the bracket alternative of the Go regex
in `ParseNestedKey`. -/
def notBr (c : Char) : Bool := !(c == '[' || c == ']')

/-- Character class `[^.\[\]]` of the dot-notation alternative of the Go
regex in `ParseNestedKey`. -/
def notSeg (c : Char) : Bool := !(c == '.' || c == '[' || c == ']')

/-- Fuel-indexed left-to-right scan equivalent to
`regex.FindAllStringSubmatch` for the pattern
`\[([^\[\]]+)\]|([^.\[\]]+)` used by Go `ParseNestedKey`
(src/unnamed/part_003 lines 665-683): at each position, prefer a
bracket-delimited segment `[...]` with nonempty bracket-free content,
otherwise take a maximal nonempty run of characters outside `.[]`,
otherwise advance one character.  Fuel at least the length of the input
makes the scan total; `scanSegs` always supplies enough. -/
def scanSegsF : Nat → List Char → List String
  | 0, _ => []
  | _ + 1, [] => []
  | n + 1, c :: rest =>
    if c = '[' then
      let content := rest.takeWhile notBr
      let after := rest.dropWhile notBr
      if after.head? = some ']' then
        if content.isEmpty then
          scanSegsF n rest
        else
          content.asString :: scanSegsF n after.tail
      else
        scanSegsF n rest
    else if c = '.' ∨ c = ']' then
      scanSegsF n rest
    else
      (c :: rest.takeWhile notSeg).asString :: scanSegsF n (rest.dropWhile notSeg)

/-- All segments the Go regex extracts from a key, in order. -/
def scanSegs (cs : List Char) : List String := scanSegsF cs.length cs

/-- Go `ParseNestedKey` (src/unnamed/part_003 lines 665-683): extract the
segments; if none were extracted, fail with the `invalid key` error. -/
def ParseNestedKey (key : String) : Except String (List String) :=
  let parts := scanSegs key.data
  if parts.isEmpty then Except.error "invalid key" else Except.ok parts

/-- The traversal loop shared by Go `GetNestedKey`, `targetHasData` and
`extractStringArrayFromMap`: descend through nested maps along the parsed
segments; a missing key or a non-map intermediate value yields `none`. -/
def getNestedVal : JVal → List String → Option JVal
  | v, [] => some v
  | JVal.obj m, k :: rest =>
    match jfind m k with
    | some v => getNestedVal v rest
    | none => none
  | _, _ :: _ => none

/-- Go `GetNestedKey` (src/unnamed/part_003 lines 685-712): parse the key,
traverse, and convert the final value to a string; any parse failure,
failed traversal, or non-string leaf yields `("", false)`. -/
def GetNestedKey (context : JMap) (key : String) : String × Bool :=
  match ParseNestedKey key with
  | Except.error _ => ("", false)
  | Except.ok parts =>
    match getNestedVal (JVal.obj context) parts with
    | some (JVal.str s) => (s, true)
    | _ => ("", false)

/-- The loop body of Go `SetNestedKey` (src/unnamed/part_003 lines 714-745)
on already-parsed segments.  The Go function mutates nested maps in place;
this embedding returns the error (if any) together with the map as left by
the call, so that partial-mutation behaviour is observable.  For every
segment but the last: descend through an existing nested map, create a
fresh empty map for a missing key, or fail when the key exists with a
non-map value.  The last segment is assigned unconditionally. -/
def setParts : JMap → List String → JVal → Option String × JMap
  | m, [], _ => (none, m)
  | m, [p], v => (none, jset m p v)
  | m, p :: q :: rest, v =>
    match jfind m p with
    | some (JVal.obj m') =>
      let r := setParts m' (q :: rest) v
      (r.1, jset m p (JVal.obj r.2))
    | some _ => (some ("key \"" ++ p ++ "\" exists but is not a map"), m)
    | none =>
      let r := setParts [] (q :: rest) v
      (r.1, jset m p (JVal.obj r.2))

/-- Go `SetNestedKey` (src/unnamed/part_003 lines 714-745): parse the key
and run the walk; a parse error leaves the document untouched. -/
def SetNestedKey (root : JMap) (key : String) (value : JVal) :
    Option String × JMap :=
  match ParseNestedKey key with
  | Except.error e => (some e, root)
  | Except.ok parts => setParts root parts value

/-- Go `targetHasData` (src/unnamed/part_003 lines 801-848): parse the key
(parse failure returns `(false, error)`), traverse (missing key or non-map
intermediate gives `(false, nil)`), then classify the leaf: nil, empty
maps, empty slices and empty strings have no data; every other value
(including numbers and booleans) has data. -/
def targetHasData (data : JMap) (key : String) : Bool × Option String :=
  match ParseNestedKey key with
  | Except.error e => (false, some e)
  | Except.ok parts =>
    match getNestedVal (JVal.obj data) parts with
    | none => (false, none)
    | some JVal.null => (false, none)
    | some (JVal.obj m) => (!m.isEmpty, none)
    | some (JVal.arr xs) => (!xs.isEmpty, none)
    | some (JVal.str s) => (!(s == ""), none)
    | some _ => (true, none)

/-- The string-filtering loop of Go `extractStringArrayFromMap`: keep the
elements of the slice that are strings, drop everything else. -/
def filterStrings (xs : List JVal) : List String :=
  xs.filterMap fun v =>
    match v with
    | JVal.str s => some s
    | _ => none

/-- The traversal loop of Go `extractStringArrayFromMap`
(src/unnamed/part_003 lines 1218-1253), which reports distinct errors for
a missing key and for a non-map intermediate value. -/
def extractGo : JVal → List String → String → Except String JVal
  | v, [], _ => Except.ok v
  | JVal.obj m, k :: rest, refKey =>
    match jfind m k with
    | some v => extractGo v rest refKey
    | none => Except.error ("cannot resolve groupsRef: " ++ refKey ++ " not found")
  | _, _ :: _, refKey =>
    Except.error ("cannot resolve groupsRef: " ++ refKey ++ " not a map")

/-- Go `extractStringArrayFromMap` (src/unnamed/part_003 lines 1218-1253):
parse the field, traverse, then require the leaf to be a slice with at
least one string element after the string filter; otherwise fail. -/
def extractStringArrayFromMap (dataMap : JMap) (field refKey : String) :
    Except String (List String) :=
  match ParseNestedKey field with
  | Except.error e => Except.error ("invalid field key: " ++ e)
  | Except.ok parts =>
    match extractGo (JVal.obj dataMap) parts refKey with
    | Except.error e => Except.error e
    | Except.ok v =>
      match v with
      | JVal.arr xs =>
        if (filterStrings xs).isEmpty then
          Except.error ("cannot resolve groupsRef: " ++ refKey ++
            " not a string array or empty")
        else
          Except.ok (filterStrings xs)
      | _ =>
        Except.error ("cannot resolve groupsRef: " ++ refKey ++
          " not a string array or empty")

/-- Go `strings.HasPrefix` on character lists. -/
def hasPreL : List Char → List Char → Bool
  | [], _ => true
  | _ :: _, [] => false
  | p :: ps, c :: cs => p == c && hasPreL ps cs

/-- Go `strings.HasPrefix`. -/
def hasPre (pre s : String) : Bool := hasPreL pre.data s.data

/-- Go `strings.TrimPrefix`: drop the prefix when present, otherwise return
the string unchanged. -/
def trimPre (pre s : String) : String :=
  if hasPre pre s then String.mk (s.data.drop pre.data.length) else s

/-- Go `isValidTarget` (src/unnamed/part_003 lines 1018-1021). -/
def isValidTarget (target : String) : Bool :=
  hasPre "status." target || hasPre "context." target

/-!
Orchestration model.  The surrounding SDK plumbing (protobuf decoding,
credential parsing, client construction) is abstracted: an `XR` carries the
outcome of `Resource.GetValueInto` for its `status` and `spec` documents
(`Except Unit JMap`, where an error models a failed unmarshal), and the
external Microsoft Graph call is an opaque `Except String JVal` supplied
with the request.  `request.GetObservedCompositeResource` and
`request.GetDesiredCompositeResource` are assumed to succeed, as is
`Resource.SetValue`; all engine-level logic is translated faithfully.
-/

/-- A composite resource as the engine sees it: its kind and the results of
reading its `status` and `spec` documents. -/
structure XR where
  kind : String
  status : Except Unit JMap
  spec : Except Unit JMap

/-- The function input (`input/v1beta1.Input`): the fields the orchestrator
reads.  Optional strings model the Go pointer fields. -/
structure FnInput where
  queryType : String
  target : String
  skipQueryWhenTargetHasData : Option Bool
  group : Option String
  groupRef : Option String
  groups : List String
  groupsRef : Option String
  users : List String
  usersRef : Option String
  servicePrincipals : List String
  servicePrincipalsRef : Option String

/-- The per-invocation request state: observed and desired composites, the
shared pipeline context, and the opaque external query collaborator. -/
structure ReqModel where
  oxr : XR
  dxr : XR
  ctx : JMap
  queryOutcome : Except String JVal

/-- The steps of Go `initializeAndCopyData` (src/unnamed/part_003 lines
137-153) that affect later reads: seed the desired kind from the observed
one, and copy a readable nonempty observed spec onto the desired XR. -/
def initializeAndCopyData (oxr dxr : XR) : XR :=
  let dxr1 := if dxr.kind = "" then { dxr with kind := oxr.kind } else dxr
  match oxr.spec with
  | Except.ok s => if s.isEmpty then dxr1 else { dxr1 with spec := Except.ok s }
  | Except.error _ => dxr1

/-- Go `getStatusFromResources` (src/unnamed/part_003 lines 155-175): use
the desired XR status when the desired kind is set and that status reads
back nonempty; otherwise fall back to the observed XR status (an observed
read failure leaves the map accumulated so far, which at that point is
always empty). -/
def getStatusFromResources (oxr dxr : XR) : JMap :=
  if dxr.kind ≠ "" then
    match dxr.status with
    | Except.ok s =>
      if s.isEmpty then
        match oxr.status with
        | Except.ok s' => s'
        | Except.error _ => []
      else s
    | Except.error _ =>
      match oxr.status with
      | Except.ok s' => s'
      | Except.error _ => []
  else
    match oxr.status with
    | Except.ok s' => s'
    | Except.error _ => []

/-- Go `getXRAndStatus` (src/unnamed/part_003 lines 105-120): initialize and
copy, then read the status with the desired-first-else-observed rule. -/
def getXRAndStatus (req : ReqModel) : JMap × XR :=
  let dxr := initializeAndCopyData req.oxr req.dxr
  (getStatusFromResources req.oxr dxr, dxr)

/-- Go `resolveFromStatus` (src/unnamed/part_003 lines 1082-1095). -/
def resolveFromStatus (req : ReqModel) (refKey : String) : Except String String :=
  let xrStatus := (getXRAndStatus req).1
  let statusField := trimPre "status." refKey
  match GetNestedKey xrStatus statusField with
  | (value, true) => Except.ok value
  | (_, false) => Except.error ("cannot resolve groupRef: " ++ refKey ++ " not found")

/-- Go `resolveFromContext` (src/unnamed/part_003 lines 1097-1106). -/
def resolveFromContext (req : ReqModel) (refKey : String) : Except String String :=
  let contextField := trimPre "context." refKey
  match GetNestedKey req.ctx contextField with
  | (value, true) => Except.ok value
  | (_, false) => Except.error ("cannot resolve groupRef: " ++ refKey ++ " not found")

/-- Go `resolveFromSpec` (src/unnamed/part_003 lines 1108-1129): read the
spec from the desired XR after the observed spec was copied down. -/
def resolveFromSpec (req : ReqModel) (refKey : String) : Except String String :=
  let dxr := (getXRAndStatus req).2
  match dxr.spec with
  | Except.error _ => Except.error "cannot get XR spec"
  | Except.ok xrSpec =>
    let specField := trimPre "spec." refKey
    match GetNestedKey xrSpec specField with
    | (value, true) => Except.ok value
    | (_, false) => Except.error ("cannot resolve groupRef: " ++ refKey ++ " not found")

/-- Go `resolveGroupRef` (src/unnamed/part_003 lines 1061-1080). -/
def resolveGroupRef (req : ReqModel) (groupRef : String) : Except String String :=
  if groupRef = "" then Except.error "empty groupRef provided"
  else if hasPre "status." groupRef then resolveFromStatus req groupRef
  else if hasPre "context." groupRef then resolveFromContext req groupRef
  else if hasPre "spec." groupRef then resolveFromSpec req groupRef
  else Except.error ("unsupported groupRef format: " ++ groupRef)

/-- Go `resolveStringArrayFromStatus` (src/unnamed/part_003 lines 1166-1175). -/
def resolveStringArrayFromStatus (req : ReqModel) (refKey : String) :
    Except String (List String) :=
  extractStringArrayFromMap (getXRAndStatus req).1 (trimPre "status." refKey) refKey

/-- Go `resolveStringArrayFromContext` (src/unnamed/part_003 lines 1177-1182). -/
def resolveStringArrayFromContext (req : ReqModel) (refKey : String) :
    Except String (List String) :=
  extractStringArrayFromMap req.ctx (trimPre "context." refKey) refKey

/-- Go `resolveStringArrayFromSpec` (src/unnamed/part_003 lines 1184-1201). -/
def resolveStringArrayFromSpec (req : ReqModel) (refKey : String) :
    Except String (List String) :=
  match (getXRAndStatus req).2.spec with
  | Except.error _ => Except.error "cannot get XR spec"
  | Except.ok xrSpec => extractStringArrayFromMap xrSpec (trimPre "spec." refKey) refKey

/-- Go `resolveStringArrayRef` (src/unnamed/part_003 lines 1131-1164),
including the rewrite of `groupsRef` in error messages to the actual
reference kind (the Go code guards the rewrite with a `strings.Contains`
check, which is redundant since replacing an absent substring is the
identity). -/
def resolveStringArrayRef (req : ReqModel) (ref : String) (refType : String) :
    Except String (List String) :=
  if ref = "" then Except.error ("empty " ++ refType ++ " provided")
  else
    let r :=
      if hasPre "status." ref then resolveStringArrayFromStatus req ref
      else if hasPre "context." ref then resolveStringArrayFromContext req ref
      else if hasPre "spec." ref then resolveStringArrayFromSpec req ref
      else Except.error ("unsupported " ++ refType ++ " format: " ++ ref)
    match r with
    | Except.error e =>
      if refType = "groupsRef" then Except.error e
      else Except.error (e.replace "groupsRef" refType)
    | Except.ok v => Except.ok v

/-- The engine steps whose relative order the spec's state machine
describes: evaluating the skip check, resolving one reference, running the
external query, and publishing the result. -/
inductive Ev where
  | skipCheck : Ev
  | refResolve : Ev
  | query : Ev
  | publish : Ev
deriving DecidableEq, Repr

/-- The single outcome the orchestrator reports per invocation. -/
inductive Outcome where
  | success : Outcome
  | skipped : Outcome
  | fatal : Outcome
deriving DecidableEq, Repr

/-- Go `checkStatusTargetHasData` (src/unnamed/part_003 lines 177-194)
with the composite fetch assumed to succeed: the skip decision is the
emptiness classifier on the status document. -/
def checkStatusTargetHasData (req : ReqModel) (inp : FnInput) : Bool :=
  let xrStatus := (getXRAndStatus req).1
  let statusField := trimPre "status." inp.target
  (targetHasData xrStatus statusField).1

/-- Go `checkContextTargetHasData` (src/unnamed/part_003 lines 1045-1059). -/
def checkContextTargetHasData (req : ReqModel) (inp : FnInput) : Bool :=
  let contextField := trimPre "context." inp.target
  (targetHasData req.ctx contextField).1

/-- Go `shouldSkipQuery` (src/unnamed/part_003 lines 1023-1043), paired
with the trace of engine steps it performs: with the flag absent or false
it returns immediately and no skip check is evaluated. -/
def shouldSkipQuery (req : ReqModel) (inp : FnInput) : Bool × List Ev :=
  let flag := inp.skipQueryWhenTargetHasData.getD false
  if !flag then (false, [])
  else if hasPre "status." inp.target then
    (checkStatusTargetHasData req inp, [Ev.skipCheck])
  else if hasPre "context." inp.target then
    (checkContextTargetHasData req inp, [Ev.skipCheck])
  else (false, [])

/-- Go `processGroupRef` (src/unnamed/part_003 lines 938-952): an absent or
empty reference is a no-op; otherwise resolve it and substitute the group
name into the working input. -/
def processGroupRef (req : ReqModel) (inp : FnInput) : Bool × FnInput × List Ev :=
  match inp.groupRef with
  | none => (true, inp, [])
  | some r =>
    if r = "" then (true, inp, [])
    else
      match resolveGroupRef req r with
      | Except.ok g => (true, { inp with group := some g }, [Ev.refResolve])
      | Except.error _ => (false, inp, [Ev.refResolve])

/-- Go `processGroupsRef` (src/unnamed/part_003 lines 954-968). -/
def processGroupsRef (req : ReqModel) (inp : FnInput) : Bool × FnInput × List Ev :=
  match inp.groupsRef with
  | none => (true, inp, [])
  | some r =>
    if r = "" then (true, inp, [])
    else
      match resolveStringArrayRef req r "groupsRef" with
      | Except.ok gs => (true, { inp with groups := gs }, [Ev.refResolve])
      | Except.error _ => (false, inp, [Ev.refResolve])

/-- Go `processUsersRef` (src/unnamed/part_003 lines 970-984). -/
def processUsersRef (req : ReqModel) (inp : FnInput) : Bool × FnInput × List Ev :=
  match inp.usersRef with
  | none => (true, inp, [])
  | some r =>
    if r = "" then (true, inp, [])
    else
      match resolveStringArrayRef req r "usersRef" with
      | Except.ok us => (true, { inp with users := us }, [Ev.refResolve])
      | Except.error _ => (false, inp, [Ev.refResolve])

/-- Go `processServicePrincipalsRef` (src/unnamed/part_003 lines 986-1000). -/
def processServicePrincipalsRef (req : ReqModel) (inp : FnInput) :
    Bool × FnInput × List Ev :=
  match inp.servicePrincipalsRef with
  | none => (true, inp, [])
  | some r =>
    if r = "" then (true, inp, [])
    else
      match resolveStringArrayRef req r "servicePrincipalsRef" with
      | Except.ok sps => (true, { inp with servicePrincipals := sps }, [Ev.refResolve])
      | Except.error _ => (false, inp, [Ev.refResolve])

/-- Go `processReferences` (src/unnamed/part_003 lines 922-936): dispatch
on the query type; unknown types resolve nothing. -/
def processReferences (req : ReqModel) (inp : FnInput) : Bool × FnInput × List Ev :=
  if inp.queryType = "GroupMembership" then processGroupRef req inp
  else if inp.queryType = "GroupObjectIDs" then processGroupsRef req inp
  else if inp.queryType = "UserValidation" then processUsersRef req inp
  else if inp.queryType = "ServicePrincipalDetails" then processServicePrincipalsRef req inp
  else (true, inp, [])

/-- Go `putQueryResultToContext` (src/unnamed/part_003 lines 773-799): trim
the `context.` prefix, set the result under the parsed path in a copy of
the shared context, and hand the updated context back (the
`structpb.Value` round-trip of the result is modelled as the identity). -/
def putQueryResultToContext (ctx : JMap) (target : String) (results : JVal) :
    Except String JMap :=
  let contextField := trimPre "context." target
  match SetNestedKey ctx contextField results with
  | (some e, _) => Except.error ("failed to update context key: " ++ e)
  | (none, updated) => Except.ok updated

/-- Go `putQueryResultToStatus` (src/unnamed/part_003 lines 747-771): load
the status with the desired-first-else-observed rule, set the result at
the trimmed path, and write the document back (the write-back to the
desired composite is assumed to succeed). -/
def putQueryResultToStatus (req : ReqModel) (inp : FnInput) (results : JVal) :
    Except String JMap :=
  let xrStatus := (getXRAndStatus req).1
  let statusField := trimPre "status." inp.target
  match SetNestedKey xrStatus statusField results with
  | (some e, _) => Except.error ("cannot set status field " ++ statusField ++ ": " ++ e)
  | (none, updated) => Except.ok updated

/-- Go `processResults` (src/unnamed/part_003 lines 218-239). -/
def processResults (req : ReqModel) (inp : FnInput) (results : JVal) :
    Except String JMap :=
  if hasPre "status." inp.target then putQueryResultToStatus req inp results
  else if hasPre "context." inp.target then putQueryResultToContext req.ctx inp.target results
  else Except.error "unrecognized target field"

/-- Go `RunFunction` composed with `validateAndPrepareInput` and
`executeAndProcessQuery` (src/unnamed/part_003 lines 44-75 and 898-1016):
validate the target, evaluate the skip decision, resolve references, run
the external query and publish.  The result is the reported outcome and
the ordered trace of engine steps performed.  Note the code order: the
skip decision is evaluated before references are resolved. -/
def runFunction (req : ReqModel) (inp : FnInput) : Outcome × List Ev :=
  if !(isValidTarget inp.target) then (Outcome.fatal, [])
  else
    match shouldSkipQuery req inp with
    | (true, evs) => (Outcome.skipped, evs)
    | (false, evs) =>
      match processReferences req inp with
      | (false, _, evs') => (Outcome.fatal, evs ++ evs')
      | (true, inp', evs') =>
        let evs2 := evs ++ evs' ++ [Ev.query]
        match req.queryOutcome with
        | Except.error _ => (Outcome.fatal, evs2)
        | Except.ok results =>
          match processResults req inp' results with
          | Except.error _ => (Outcome.fatal, evs2 ++ [Ev.publish])
          | Except.ok _ => (Outcome.success, evs2 ++ [Ev.publish])

/-! Basic lemmas about map lookup and update. -/

theorem getNestedVal_nil (v : JVal) : getNestedVal v [] = some v := by
  cases v <;> rfl

theorem getNestedVal_obj_cons (m : JMap) (k : String) (ks : List String) :
    getNestedVal (JVal.obj m) (k :: ks) =
      match jfind m k with
      | some v => getNestedVal v ks
      | none => none := rfl

theorem getNestedVal_cons_find {m : JMap} {k : String} {ks : List String}
    {w : JVal} (h : jfind m k = some w) :
    getNestedVal (JVal.obj m) (k :: ks) = getNestedVal w ks := by
  rw [getNestedVal_obj_cons, h]

theorem getNestedVal_cons_nofind {m : JMap} {k : String} {ks : List String}
    (h : jfind m k = none) :
    getNestedVal (JVal.obj m) (k :: ks) = none := by
  rw [getNestedVal_obj_cons, h]

theorem jfind_jset_self (m : JMap) (k : String) (v : JVal) :
    jfind (jset m k v) k = some v := by
  induction m with
  | nil => simp [jfind, jset]
  | cons hd tl ih =>
    obtain ⟨k', w⟩ := hd
    by_cases h : k' = k
    · simp [jfind, jset, h]
    · simp [jfind, jset, h, ih]

theorem jfind_jset_ne (m : JMap) (k k' : String) (v : JVal) (h : k' ≠ k) :
    jfind (jset m k v) k' = jfind m k' := by
  have hne : ¬ (k = k') := fun hh => h (Eq.symm hh)
  induction m with
  | nil => simp [jfind, jset, hne]
  | cons hd tl ih =>
    obtain ⟨k0, w⟩ := hd
    by_cases h0 : k0 = k
    · subst h0
      simp [jfind, jset, hne]
    · by_cases h1 : k0 = k'
      · simp [jfind, jset, h0, h1, h]
      · simp [jfind, jset, h0, h1, ih]

theorem jset_self (m : JMap) (k : String) (w : JVal) (h : jfind m k = some w) :
    jset m k w = m := by
  induction m with
  | nil => simp [jfind] at h
  | cons hd tl ih =>
    obtain ⟨k0, w0⟩ := hd
    by_cases h0 : k0 = k
    · subst h0
      simp [jfind] at h
      simp [jset, h]
    · simp [jfind, h0] at h
      simp [jset, h0, ih h]

/-! Lemmas about the `SetNestedKey` walk. -/

theorem setParts_fresh_ok (ps : List String) (v : JVal) :
    (setParts [] ps v).1 = none := by
  induction ps with
  | nil => simp [setParts]
  | cons p rest ih =>
    cases rest with
    | nil => simp [setParts]
    | cons q rest2 => simpa [setParts, jfind] using ih

theorem setParts_err_id (ps : List String) (m : JMap) (v : JVal) (e : String)
    (m2 : JMap) (h : setParts m ps v = (some e, m2)) : m2 = m := by
  induction ps generalizing m m2 with
  | nil => simp [setParts] at h
  | cons p rest ih =>
    cases rest with
    | nil => simp [setParts] at h
    | cons q rest2 =>
      cases hf : jfind m p with
      | some w =>
        cases w with
        | obj sub =>
          rw [setParts, hf] at h
          simp only [Prod.mk.injEq] at h
          obtain ⟨h1, h2⟩ := h
          have hsub : setParts sub (q :: rest2) v =
              (some e, (setParts sub (q :: rest2) v).2) := by
            rw [← h1]
          have heq := ih sub _ hsub
          rw [← h2, heq, jset_self m p (JVal.obj sub) hf]
        | null => rw [setParts, hf] at h; simp only [Prod.mk.injEq] at h; exact h.2.symm
        | bool b => rw [setParts, hf] at h; simp only [Prod.mk.injEq] at h; exact h.2.symm
        | num n => rw [setParts, hf] at h; simp only [Prod.mk.injEq] at h; exact h.2.symm
        | str s => rw [setParts, hf] at h; simp only [Prod.mk.injEq] at h; exact h.2.symm
        | arr xs => rw [setParts, hf] at h; simp only [Prod.mk.injEq] at h; exact h.2.symm
      | none =>
        rw [setParts, hf] at h
        simp only [Prod.mk.injEq] at h
        have hok := setParts_fresh_ok (q :: rest2) v
        rw [hok] at h
        simp at h

theorem setParts_get (ps : List String) (m m' : JMap) (v : JVal)
    (hne : ps ≠ []) (h : setParts m ps v = (none, m')) :
    getNestedVal (JVal.obj m') ps = some v := by
  induction ps generalizing m m' with
  | nil => exact absurd rfl hne
  | cons p rest ih =>
    cases rest with
    | nil =>
      simp only [setParts, Prod.mk.injEq, true_and] at h
      subst h
      rw [getNestedVal_cons_find (jfind_jset_self m p v)]
      exact getNestedVal_nil v
    | cons q rest2 =>
      cases hf : jfind m p with
      | some w =>
        cases w with
        | obj sub =>
          rw [setParts, hf] at h
          simp only [Prod.mk.injEq] at h
          obtain ⟨h1, h2⟩ := h
          have hsub : setParts sub (q :: rest2) v =
              (none, (setParts sub (q :: rest2) v).2) := by
            rw [← h1]
          have hrec := ih sub _ (by simp) hsub
          rw [← h2,
            getNestedVal_cons_find (jfind_jset_self m p
              (JVal.obj (setParts sub (q :: rest2) v).2))]
          exact hrec
        | null => rw [setParts, hf] at h; simp at h
        | bool b => rw [setParts, hf] at h; simp at h
        | num n => rw [setParts, hf] at h; simp at h
        | str s => rw [setParts, hf] at h; simp at h
        | arr xs => rw [setParts, hf] at h; simp at h
      | none =>
        rw [setParts, hf] at h
        simp only [Prod.mk.injEq] at h
        obtain ⟨h1, h2⟩ := h
        have hsub : setParts [] (q :: rest2) v =
            (none, (setParts [] (q :: rest2) v).2) := by
          rw [← h1]
        have hrec := ih [] _ (by simp) hsub
        rw [← h2,
          getNestedVal_cons_find (jfind_jset_self m p
            (JVal.obj (setParts [] (q :: rest2) v).2))]
        exact hrec

/-- Two paths diverge when they agree on a (possibly empty) proper prefix
of segments and then differ: lookups along a path diverging from the
written one see only sibling keys of the write. -/
inductive Diverges : List String → List String → Prop where
  | head {a b : String} {ps qs : List String} : a ≠ b → Diverges (a :: ps) (b :: qs)
  | tail {a : String} {ps qs : List String} : Diverges ps qs → Diverges (a :: ps) (a :: qs)

theorem diverges_shape {ps qs : List String} (h : Diverges ps qs) :
    ∃ p ps' q qs', ps = p :: ps' ∧ qs = q :: qs' := by
  cases h with
  | head hne => exact ⟨_, _, _, _, rfl, rfl⟩
  | tail hd => exact ⟨_, _, _, _, rfl, rfl⟩

theorem setParts_cons_shape {m m' : JMap} {a : String} {ps : List String}
    {v : JVal} (h : setParts m (a :: ps) v = (none, m')) :
    ∃ X, m' = jset m a X := by
  cases ps with
  | nil =>
    simp only [setParts, Prod.mk.injEq, true_and] at h
    exact ⟨v, h.symm⟩
  | cons q rest2 =>
    cases hf : jfind m a with
    | some w =>
      cases w with
      | obj sub =>
        rw [setParts, hf] at h
        simp only [Prod.mk.injEq] at h
        exact ⟨_, h.2.symm⟩
      | null => rw [setParts, hf] at h; simp at h
      | bool b => rw [setParts, hf] at h; simp at h
      | num n => rw [setParts, hf] at h; simp at h
      | str s => rw [setParts, hf] at h; simp at h
      | arr xs => rw [setParts, hf] at h; simp at h
    | none =>
      rw [setParts, hf] at h
      simp only [Prod.mk.injEq] at h
      exact ⟨_, h.2.symm⟩

theorem setParts_frame (ps qs : List String) (m m' : JMap) (v : JVal)
    (h : setParts m ps v = (none, m')) (hd : Diverges ps qs) :
    getNestedVal (JVal.obj m') qs = getNestedVal (JVal.obj m) qs := by
  induction hd generalizing m m' with
  | @head a b ps' qs' hne =>
    obtain ⟨X, hX⟩ := setParts_cons_shape h
    subst hX
    have hfb : jfind (jset m a X) b = jfind m b :=
      jfind_jset_ne m a b X (fun hh => hne (Eq.symm hh))
    rw [getNestedVal_obj_cons, getNestedVal_obj_cons, hfb]
  | @tail a ps' qs' hd' ih =>
    obtain ⟨p2, ps2, q2, qs2, hps, hqs⟩ := diverges_shape hd'
    subst hps
    cases hf : jfind m a with
    | some w =>
      cases w with
      | obj sub =>
        rw [setParts, hf] at h
        simp only [Prod.mk.injEq] at h
        obtain ⟨h1, h2⟩ := h
        have hsub : setParts sub (p2 :: ps2) v =
            (none, (setParts sub (p2 :: ps2) v).2) := by
          rw [← h1]
        have hrec := ih sub _ hsub
        rw [← h2,
          getNestedVal_cons_find (jfind_jset_self m a
            (JVal.obj (setParts sub (p2 :: ps2) v).2)),
          getNestedVal_cons_find hf]
        exact hrec
      | null => rw [setParts, hf] at h; simp at h
      | bool b => rw [setParts, hf] at h; simp at h
      | num n => rw [setParts, hf] at h; simp at h
      | str s => rw [setParts, hf] at h; simp at h
      | arr xs => rw [setParts, hf] at h; simp at h
    | none =>
      rw [setParts, hf] at h
      simp only [Prod.mk.injEq] at h
      obtain ⟨h1, h2⟩ := h
      have hsub : setParts [] (p2 :: ps2) v =
          (none, (setParts [] (p2 :: ps2) v).2) := by
        rw [← h1]
      have hrec := ih [] _ hsub
      rw [← h2,
        getNestedVal_cons_find (jfind_jset_self m a
          (JVal.obj (setParts [] (p2 :: ps2) v).2)),
        getNestedVal_cons_nofind hf, hrec]
      subst hqs
      exact getNestedVal_cons_nofind (by simp [jfind])

/-! The `extractStringArrayFromMap` traversal agrees with the shared
traversal `getNestedVal`. -/

theorem extractGo_ok_iff (ps : List String) (u : JVal) (refKey : String)
    (w : JVal) : extractGo u ps refKey = Except.ok w ↔ getNestedVal u ps = some w := by
  induction ps generalizing u with
  | nil =>
    cases u <;> simp [extractGo, getNestedVal]
  | cons k rest ih =>
    cases u with
    | obj m =>
      cases hf : jfind m k with
      | some v =>
        rw [extractGo, hf, getNestedVal_cons_find hf]
        exact ih v
      | none =>
        rw [extractGo, hf, getNestedVal_cons_nofind hf]
        simp
    | null => simp [extractGo, getNestedVal]
    | bool b => simp [extractGo, getNestedVal]
    | num n => simp [extractGo, getNestedVal]
    | str s => simp [extractGo, getNestedVal]
    | arr xs => simp [extractGo, getNestedVal]

theorem extractGo_err_iff (ps : List String) (u : JVal) (refKey : String) :
    (∃ e, extractGo u ps refKey = Except.error e) ↔ getNestedVal u ps = none := by
  constructor
  · intro ⟨e, he⟩
    cases hg : getNestedVal u ps with
    | none => rfl
    | some w =>
      have := (extractGo_ok_iff ps u refKey w).mpr hg
      rw [this] at he
      exact absurd he (by simp)
  · intro hg
    cases hx : extractGo u ps refKey with
    | error e => exact ⟨e, rfl⟩
    | ok w =>
      have := (extractGo_ok_iff ps u refKey w).mp hx
      rw [this] at hg
      exact absurd hg (by simp)

/-! Lemmas about the segment scanner. -/

theorem takeWhile_all_append (p : Char → Bool) (l t : List Char)
    (h : ∀ c ∈ l, p c = true) : (l ++ t).takeWhile p = l ++ t.takeWhile p := by
  induction l with
  | nil => simp
  | cons c rest ih =>
    have hc := h c (by simp)
    simp only [List.cons_append, List.takeWhile_cons, hc, if_true]
    rw [ih (fun d hd => h d (by simp [hd]))]

theorem dropWhile_all_append (p : Char → Bool) (l t : List Char)
    (h : ∀ c ∈ l, p c = true) : (l ++ t).dropWhile p = t.dropWhile p := by
  induction l with
  | nil => simp
  | cons c rest ih =>
    have hc := h c (by simp)
    simp only [List.cons_append, List.dropWhile_cons, hc, if_true]
    exact ih (fun d hd => h d (by simp [hd]))

theorem dropWhile_length_le (p : Char → Bool) (l : List Char) :
    (l.dropWhile p).length ≤ l.length := by
  induction l with
  | nil => simp
  | cons c rest ih =>
    by_cases hc : p c
    · simp only [List.dropWhile_cons, hc, if_true]
      exact Nat.le_succ_of_le ih
    · simp [List.dropWhile_cons, hc]

theorem scanSegsF_nil (n : Nat) : scanSegsF n [] = [] := by
  cases n <;> rfl

theorem scanSegsF_fuel (n : Nat) : ∀ (cs : List Char), cs.length ≤ n →
    ∀ (m : Nat), cs.length ≤ m → scanSegsF n cs = scanSegsF m cs := by
  induction n with
  | zero =>
    intro cs hc m _
    have : cs = [] := List.eq_nil_of_length_eq_zero (Nat.le_zero.mp hc)
    subst this
    rw [scanSegsF_nil, scanSegsF_nil]
  | succ n ih =>
    intro cs hc m hm
    cases cs with
    | nil => rw [scanSegsF_nil, scanSegsF_nil]
    | cons c rest =>
      cases m with
      | zero => simp at hm
      | succ m' =>
        have hn : rest.length ≤ n := Nat.succ_le_succ_iff.mp hc
        have hm' : rest.length ≤ m' := Nat.succ_le_succ_iff.mp hm
        have hdropBr : ((rest.dropWhile notBr).tail).length ≤ rest.length :=
          le_trans (List.length_tail _ ▸ Nat.sub_le _ _) (dropWhile_length_le notBr rest)
        have hdropSeg : (rest.dropWhile notSeg).length ≤ rest.length :=
          dropWhile_length_le notSeg rest
        simp only [scanSegsF]
        by_cases hbr : c = '['
        · simp only [if_pos hbr]
          by_cases hhd : (rest.dropWhile notBr).head? = some ']'
          · simp only [if_pos hhd]
            by_cases hemp : (rest.takeWhile notBr).isEmpty
            · simp only [if_pos hemp]
              exact ih rest hn m' hm'
            · simp only [if_neg hemp]
              rw [ih _ (le_trans hdropBr hn) m' (le_trans hdropBr hm')]
          · simp only [if_neg hhd]
            exact ih rest hn m' hm'
        · simp only [if_neg hbr]
          by_cases hds : c = '.' ∨ c = ']'
          · simp only [if_pos hds]
            exact ih rest hn m' hm'
          · simp only [if_neg hds]
            rw [ih _ (le_trans hdropSeg hn) m' (le_trans hdropSeg hm')]

theorem scanSegs_dot (l : List Char) : scanSegs ('.' :: l) = scanSegs l := by
  have h1 : ¬(('.' : Char) = '[') := by decide
  have h2 : (('.' : Char) = '.' ∨ ('.' : Char) = ']') := Or.inl rfl
  show scanSegsF (l.length + 1) ('.' :: l) = scanSegs l
  simp only [scanSegsF, if_neg h1, if_pos h2]
  rfl

theorem scanSegs_bracket (k tail : List Char) (hk : k ≠ [])
    (hsafe : ∀ c ∈ k, notBr c = true) :
    scanSegs ('[' :: (k ++ ']' :: tail)) = k.asString :: scanSegs tail := by
  have hbrt : notBr ']' = false := by decide
  have htake : (k ++ ']' :: tail).takeWhile notBr = k := by
    rw [takeWhile_all_append notBr k (']' :: tail) hsafe]
    simp [List.takeWhile_cons, hbrt]
  have hdropw : (k ++ ']' :: tail).dropWhile notBr = ']' :: tail := by
    rw [dropWhile_all_append notBr k (']' :: tail) hsafe]
    simp [List.dropWhile_cons, hbrt]
  show scanSegsF ((k ++ ']' :: tail).length + 1) ('[' :: (k ++ ']' :: tail)) =
    k.asString :: scanSegs tail
  simp only [scanSegsF, if_pos rfl, hdropw, htake]
  have hemp : k.isEmpty = false := by
    cases k with
    | nil => exact absurd rfl hk
    | cons a b => rfl
  simp only [hemp, List.head?, List.tail, Option.some.injEq, if_true, if_false,
    Bool.false_eq_true, reduceIte]
  rw [scanSegsF_fuel _ tail (by simp [List.length_append]; omega) tail.length (le_refl _)]
  rfl

theorem hasPreL_append (p t : List Char) : hasPreL p (p ++ t) = true := by
  induction p with
  | nil => rfl
  | cons c rest ih => simp [hasPreL, ih]

theorem trimPre_append (pre s : String) : trimPre pre (pre ++ s) = s := by
  have hdata : (pre ++ s).data = pre.data ++ s.data := rfl
  have hp : hasPre pre (pre ++ s) = true := by
    unfold hasPre
    rw [hdata]
    exact hasPreL_append pre.data s.data
  unfold trimPre
  rw [if_pos hp, hdata, List.drop_left]

theorem parse_ok_parts {key : String} {parts : List String}
    (h : ParseNestedKey key = Except.ok parts) :
    parts = scanSegs key.data ∧ parts ≠ [] := by
  unfold ParseNestedKey at h
  by_cases he : (scanSegs key.data).isEmpty
  · rw [if_pos he] at h
    exact absurd h (by simp)
  · rw [if_neg he] at h
    simp only [Except.ok.injEq] at h
    subst h
    exact ⟨rfl, by simpa using he⟩

theorem getNestedVal_singleton (m : JMap) (p : String) :
    getNestedVal (JVal.obj m) [p] = jfind m p := by
  rw [getNestedVal_obj_cons]
  cases jfind m p with
  | some u => exact getNestedVal_nil u
  | none => rfl

/-- C1 (counterexample): the claim promises that after `set(doc, P, V)` a
`get(doc, P)` returns `(V, true)` for every value `V`, "not only strings".
But Go `GetNestedKey` converts the leaf to a string and reports
`("", false)` for any non-string leaf: storing the array `[1]` under `"a"`
succeeds, yet `get` reports not-found. -/
theorem c1_set_get_counterexample :
    SetNestedKey [] "a" (JVal.arr [JVal.num 1]) =
      (none, [("a", JVal.arr [JVal.num 1])]) ∧
    GetNestedKey [("a", JVal.arr [JVal.num 1])] "a" = ("", false) :=
  ⟨rfl, rfl⟩

/-- C1 (amended): for every document, well-formed path and value, a
successful `SetNestedKey` stores exactly the given value at the parsed
path (witnessed by the shared traversal), `GetNestedKey` afterwards
returns `(V, true)` precisely when `V` is a string, and every path
diverging from the written one — in particular every sibling key at every
level — resolves to the same value as before the set. -/
theorem c1_set_then_get (doc doc2 : JMap) (key : String) (parts : List String)
    (v : JVal) (hp : ParseNestedKey key = Except.ok parts)
    (hs : SetNestedKey doc key v = (none, doc2)) :
    getNestedVal (JVal.obj doc2) parts = some v ∧
    (∀ s, v = JVal.str s → GetNestedKey doc2 key = (s, true)) ∧
    (∀ qs, Diverges parts qs →
      getNestedVal (JVal.obj doc2) qs = getNestedVal (JVal.obj doc) qs) := by
  obtain ⟨-, hne⟩ := parse_ok_parts hp
  unfold SetNestedKey at hs
  rw [hp] at hs
  have hget := setParts_get parts doc doc2 v hne hs
  refine ⟨hget, ?_, ?_⟩
  · intro s hv
    subst hv
    have hred : GetNestedKey doc2 key =
        match getNestedVal (JVal.obj doc2) parts with
        | some (JVal.str s') => (s', true)
        | _ => ("", false) := by
      unfold GetNestedKey
      rw [hp]
    rw [hred, hget]
  · intro qs hdq
    exact setParts_frame parts qs doc doc2 v hs hdq

/-- Witness for C1 (amended) at a concrete input. -/
theorem c1_set_then_get_witness :
    GetNestedKey (SetNestedKey [("sib", JVal.str "keep")] "a.b"
      (JVal.str "val")).2 "a.b" = ("val", true) :=
  (c1_set_then_get [("sib", JVal.str "keep")] _ "a.b" ["a", "b"]
    (JVal.str "val") rfl rfl).2.1 "val" rfl

theorem setParts_conflict (i : Nat) : ∀ (parts : List String) (doc : JMap)
    (v w : JVal), i + 1 < parts.length →
    getNestedVal (JVal.obj doc) (parts.take (i + 1)) = some w →
    (∀ m, w ≠ JVal.obj m) →
    ∃ e, setParts doc parts v = (some e, doc) := by
  induction i with
  | zero =>
    intro parts doc v w hi hw hnm
    match parts, hi with
    | p :: q :: rest2, _ =>
      simp only [List.take, getNestedVal_singleton] at hw
      cases w with
      | obj m => exact absurd rfl (hnm m)
      | null => exact ⟨_, by rw [setParts, hw]⟩
      | bool b => exact ⟨_, by rw [setParts, hw]⟩
      | num n => exact ⟨_, by rw [setParts, hw]⟩
      | str s => exact ⟨_, by rw [setParts, hw]⟩
      | arr xs => exact ⟨_, by rw [setParts, hw]⟩
  | succ i ih =>
    intro parts doc v w hi hw hnm
    match parts, hi with
    | p :: q :: rest2, hi =>
      have hlen : i + 1 < (q :: rest2).length := by
        simp only [List.length_cons] at hi ⊢
        omega
      have htake : (p :: q :: rest2).take (i + 1 + 1) =
          p :: ((q :: rest2).take (i + 1)) := rfl
      rw [htake, getNestedVal_obj_cons] at hw
      cases hf : jfind doc p with
      | none => rw [hf] at hw; exact absurd hw (by simp)
      | some u =>
        rw [hf] at hw
        have hw' : getNestedVal u ((q :: rest2).take (i + 1)) = some w := hw
        cases u with
        | obj sub =>
          obtain ⟨e, he⟩ := ih (q :: rest2) sub v w hlen hw' hnm
          refine ⟨e, ?_⟩
          rw [setParts, hf]
          show ((setParts sub (q :: rest2) v).1,
            jset doc p (JVal.obj (setParts sub (q :: rest2) v).2)) = (some e, doc)
          rw [he]
          show (some e, jset doc p (JVal.obj sub)) = (some e, doc)
          rw [jset_self doc p (JVal.obj sub) hf]
        | null =>
          have hz : getNestedVal JVal.null ((q :: rest2).take (i + 1)) = none := rfl
          rw [hz] at hw'
          exact absurd hw' (by simp)
        | bool b =>
          have hz : getNestedVal (JVal.bool b) ((q :: rest2).take (i + 1)) = none := rfl
          rw [hz] at hw'
          exact absurd hw' (by simp)
        | num n =>
          have hz : getNestedVal (JVal.num n) ((q :: rest2).take (i + 1)) = none := rfl
          rw [hz] at hw'
          exact absurd hw' (by simp)
        | str s =>
          have hz : getNestedVal (JVal.str s) ((q :: rest2).take (i + 1)) = none := rfl
          rw [hz] at hw'
          exact absurd hw' (by simp)
        | arr xs =>
          have hz : getNestedVal (JVal.arr xs) ((q :: rest2).take (i + 1)) = none := rfl
          rw [hz] at hw'
          exact absurd hw' (by simp)

/-- C9: on a multi-segment path, whenever the walk reaches an intermediate
segment whose key exists with a non-map value, `SetNestedKey` fails with
the type-conflict error and returns the document unchanged — the existing
non-map value is never replaced or coerced into a map. -/
theorem c9_set_type_conflict (doc : JMap) (key : String) (parts : List String)
    (v w : JVal) (i : Nat) (hp : ParseNestedKey key = Except.ok parts)
    (hi : i + 1 < parts.length)
    (hw : getNestedVal (JVal.obj doc) (parts.take (i + 1)) = some w)
    (hnm : ∀ m, w ≠ JVal.obj m) :
    (∃ e, (SetNestedKey doc key v).1 = some e) ∧
    (SetNestedKey doc key v).2 = doc := by
  obtain ⟨e, he⟩ := setParts_conflict i parts doc v w hi hw hnm
  unfold SetNestedKey
  rw [hp]
  show (∃ e', (setParts doc parts v).1 = some e') ∧
    (setParts doc parts v).2 = doc
  rw [he]
  exact ⟨⟨e, rfl⟩, rfl⟩

/-- Witness for C9 at a concrete input: `doc.a` is the string `"s"`, so
setting `a.b` fails and leaves the document intact. -/
theorem c9_set_type_conflict_witness :
    (∃ e, (SetNestedKey [("a", JVal.str "s")] "a.b" (JVal.num 7)).1 = some e) ∧
    (SetNestedKey [("a", JVal.str "s")] "a.b" (JVal.num 7)).2 =
      [("a", JVal.str "s")] :=
  c9_set_type_conflict [("a", JVal.str "s")] "a.b" ["a", "b"] (JVal.num 7)
    (JVal.str "s") 0 rfl (by decide) rfl (fun m h => JVal.noConfusion h)

/-- C10: `SetNestedKey` is atomic on error — whenever it returns an error
(a malformed key or a type conflict), the document it hands back is
exactly the input document: the conflict is always detected before any new
intermediate map would be linked in, so a failed set performs no mutation. -/
theorem c10_set_atomic_on_error (doc : JMap) (key : String) (v : JVal)
    (e : String) (doc2 : JMap) (h : SetNestedKey doc key v = (some e, doc2)) :
    doc2 = doc := by
  unfold SetNestedKey at h
  cases hp : ParseNestedKey key with
  | error e' =>
    rw [hp] at h
    simp only [Prod.mk.injEq] at h
    exact h.2.symm
  | ok parts =>
    rw [hp] at h
    exact setParts_err_id parts doc v e doc2 h

/-- Witness for C10 at a concrete input: a conflicting three-segment set
returns the document unchanged. -/
theorem c10_set_atomic_on_error_witness :
    (SetNestedKey [("a", JVal.str "s"), ("k", JVal.num 3)] "a.b.c"
      (JVal.bool true)).2 = [("a", JVal.str "s"), ("k", JVal.num 3)] :=
  c10_set_atomic_on_error [("a", JVal.str "s"), ("k", JVal.num 3)] "a.b.c"
    (JVal.bool true) "key \"a\" exists but is not a map" _ rfl

/-- C3 (counterexample): the claim says every input containing consecutive
dots fails with the invalid-key error, and that the empty segment between
consecutive dots is not silently skipped.  The Go regex cannot match a dot
in either alternative, so it simply scans past the second dot:
`ParseNestedKey "a..b"` succeeds with `["a", "b"]`, silently dropping the
empty segment. -/
theorem c3_consecutive_dots_counterexample :
    ParseNestedKey "a..b" = Except.ok ["a", "b"] := rfl

/-- C3 (amended): `ParseNestedKey` fails with the invalid-key error exactly
for inputs from which the scanner extracts no segments — for example the
empty string or a string of only dots — while an input with consecutive
dots between nonempty segments parses successfully, the empty segment
between the dots being silently dropped. -/
theorem c3_parse_error_iff_no_segments :
    (∀ key : String,
      (∃ e, ParseNestedKey key = Except.error e) ↔ scanSegs key.data = []) ∧
    ParseNestedKey "" = Except.error "invalid key" ∧
    ParseNestedKey ".." = Except.error "invalid key" ∧
    ParseNestedKey "a..b" = Except.ok ["a", "b"] := by
  refine ⟨?_, rfl, rfl, rfl⟩
  intro key
  constructor
  · intro ⟨e, he⟩
    unfold ParseNestedKey at he
    by_cases hs : (scanSegs key.data).isEmpty
    · exact List.isEmpty_iff.mp hs
    · rw [if_neg hs] at he
      exact absurd he (by simp)
  · intro hs
    refine ⟨"invalid key", ?_⟩
    unfold ParseNestedKey
    rw [if_pos (by simp [hs])]

/-- Witness for C3 (amended): a string of only dots extracts no segments. -/
theorem c3_parse_error_iff_no_segments_witness :
    scanSegs (String.data "..") = [] :=
  (c3_parse_error_iff_no_segments.1 "..").mp ⟨"invalid key", rfl⟩

/-- C5: for a well-formed field whose traversal reaches an array,
`extractStringArrayFromMap` silently drops every non-string element and
returns the remaining strings, failing exactly when the filtered list is
empty; it also fails when the leaf is not an array and when the path does
not resolve (missing key or non-map intermediate). -/
theorem c5_extract_string_array (m : JMap) (field refKey : String)
    (parts : List String) (hp : ParseNestedKey field = Except.ok parts) :
    (∀ xs, getNestedVal (JVal.obj m) parts = some (JVal.arr xs) →
      (filterStrings xs ≠ [] →
        extractStringArrayFromMap m field refKey = Except.ok (filterStrings xs)) ∧
      (filterStrings xs = [] →
        ∃ e, extractStringArrayFromMap m field refKey = Except.error e)) ∧
    (∀ v, getNestedVal (JVal.obj m) parts = some v → (∀ xs, v ≠ JVal.arr xs) →
      ∃ e, extractStringArrayFromMap m field refKey = Except.error e) ∧
    (getNestedVal (JVal.obj m) parts = none →
      ∃ e, extractStringArrayFromMap m field refKey = Except.error e) := by
  have hred : extractStringArrayFromMap m field refKey =
      match extractGo (JVal.obj m) parts refKey with
      | Except.error e => Except.error e
      | Except.ok v =>
        match v with
        | JVal.arr xs =>
          if (filterStrings xs).isEmpty then
            Except.error ("cannot resolve groupsRef: " ++ refKey ++
              " not a string array or empty")
          else
            Except.ok (filterStrings xs)
        | _ =>
          Except.error ("cannot resolve groupsRef: " ++ refKey ++
            " not a string array or empty") := by
    unfold extractStringArrayFromMap
    rw [hp]
  refine ⟨?_, ?_, ?_⟩
  · intro xs hxs
    have hok := (extractGo_ok_iff parts (JVal.obj m) refKey (JVal.arr xs)).mpr hxs
    constructor
    · intro hne
      rw [hred, hok]
      simp only [List.isEmpty_eq_true]
      rw [if_neg hne]
    · intro hemp
      rw [hred, hok]
      simp only [List.isEmpty_eq_true]
      rw [if_pos hemp]
      exact ⟨_, rfl⟩
  · intro v hv hnarr
    have hok := (extractGo_ok_iff parts (JVal.obj m) refKey v).mpr hv
    rw [hred, hok]
    cases v with
    | arr xs => exact absurd rfl (hnarr xs)
    | null => exact ⟨_, rfl⟩
    | bool b => exact ⟨_, rfl⟩
    | num n => exact ⟨_, rfl⟩
    | str s => exact ⟨_, rfl⟩
    | obj m2 => exact ⟨_, rfl⟩
  · intro hn
    obtain ⟨e, he⟩ := (extractGo_err_iff parts (JVal.obj m) refKey).mpr hn
    rw [hred, he]
    exact ⟨e, rfl⟩

/-- Witness for C5: a mixed array keeps only its string element. -/
theorem c5_extract_string_array_witness :
    extractStringArrayFromMap [("g", JVal.arr [JVal.num 1, JVal.str "x"])]
      "g" "status.g" = Except.ok ["x"] :=
  ((c5_extract_string_array [("g", JVal.arr [JVal.num 1, JVal.str "x"])]
    "g" "status.g" ["g"] rfl).1 [JVal.num 1, JVal.str "x"] rfl).1 (by decide)

/-- C6: for every document and well-formed key, `targetHasData` reports no
data exactly when the path does not resolve or resolves to null, an empty
map, an empty slice, or an empty string; every number and boolean
(including zero and false) counts as data. -/
theorem c6_target_has_data (data : JMap) (key : String) (parts : List String)
    (hp : ParseNestedKey key = Except.ok parts) :
    ((targetHasData data key).1 = false ↔
      (getNestedVal (JVal.obj data) parts = none ∨
       getNestedVal (JVal.obj data) parts = some JVal.null ∨
       getNestedVal (JVal.obj data) parts = some (JVal.obj []) ∨
       getNestedVal (JVal.obj data) parts = some (JVal.arr []) ∨
       getNestedVal (JVal.obj data) parts = some (JVal.str ""))) ∧
    (∀ n : Int, getNestedVal (JVal.obj data) parts = some (JVal.num n) →
      (targetHasData data key).1 = true) ∧
    (∀ b : Bool, getNestedVal (JVal.obj data) parts = some (JVal.bool b) →
      (targetHasData data key).1 = true) := by
  have hred : targetHasData data key =
      match getNestedVal (JVal.obj data) parts with
      | none => (false, none)
      | some JVal.null => (false, none)
      | some (JVal.obj m) => (!m.isEmpty, none)
      | some (JVal.arr xs) => (!xs.isEmpty, none)
      | some (JVal.str s) => (!(s == ""), none)
      | some _ => (true, none) := by
    unfold targetHasData
    rw [hp]
  cases hv : getNestedVal (JVal.obj data) parts with
  | none => rw [hred, hv]; simp
  | some v =>
    cases v with
    | null => rw [hred, hv]; simp
    | bool b => rw [hred, hv]; simp
    | num n => rw [hred, hv]; simp
    | str s =>
      rw [hred, hv]
      simp only [Option.some.injEq, JVal.str.injEq, Bool.not_eq_false']
      refine ⟨?_, fun n h => by simp at h, fun b h => by simp at h⟩
      simp only [beq_iff_eq]
      constructor
      · intro h
        exact Or.inr (Or.inr (Or.inr (Or.inr h)))
      · rintro (h | h | h | h | h) <;> simp_all
    | arr xs =>
      rw [hred, hv]
      simp only [Option.some.injEq, JVal.arr.injEq]
      constructor
      · simp only [Bool.not_eq_false', List.isEmpty_eq_true]
        constructor
        · intro h
          exact Or.inr (Or.inr (Or.inr (Or.inl h)))
        · rintro (h | h | h | h | h) <;> simp_all
      · exact ⟨fun n h => by simp at h, fun b h => by simp at h⟩
    | obj m =>
      rw [hred, hv]
      simp only [Option.some.injEq, JVal.obj.injEq]
      constructor
      · simp only [Bool.not_eq_false', List.isEmpty_eq_true]
        constructor
        · intro h
          exact Or.inr (Or.inr (Or.inl h))
        · rintro (h | h | h | h | h) <;> simp_all
      · exact ⟨fun n h => by simp at h, fun b h => by simp at h⟩

/-- Witness for C6: the number zero counts as present data. -/
theorem c6_target_has_data_witness :
    (targetHasData [("k", JVal.num 0)] "k").1 = true :=
  (c6_target_has_data [("k", JVal.num 0)] "k" ["k"] rfl).2.1 0 rfl

theorem initializeAndCopyData_status (oxr dxr : XR) :
    (initializeAndCopyData oxr dxr).status = dxr.status := by
  unfold initializeAndCopyData
  cases oxr.spec with
  | ok s =>
    by_cases h : dxr.kind = "" <;> by_cases h2 : s.isEmpty <;> simp [h, h2]
  | error u =>
    by_cases h : dxr.kind = "" <;> simp [h]

theorem getStatusFromResources_fallback (oxr dxr : XR) (m : JMap)
    (hdes : dxr.status = Except.ok [] ∨ dxr.status = Except.error ())
    (hobs : oxr.status = Except.ok m) :
    getStatusFromResources oxr dxr = m := by
  by_cases hk : dxr.kind = ""
  · simp [getStatusFromResources, hk, hobs]
  · rcases hdes with h | h <;> simp [getStatusFromResources, hk, h, hobs]

theorem initializeAndCopyData_kind (oxr dxr : XR) :
    (initializeAndCopyData oxr dxr).kind =
      if dxr.kind = "" then oxr.kind else dxr.kind := by
  unfold initializeAndCopyData
  cases oxr.spec with
  | ok s =>
    by_cases h : dxr.kind = "" <;> by_cases h2 : s.isEmpty <;> simp [h, h2]
  | error u =>
    by_cases h : dxr.kind = "" <;> simp [h]

theorem getStatusFromResources_desired (oxr dxr : XR) (s : JMap)
    (hk : dxr.kind ≠ "") (hst : dxr.status = Except.ok s) (hne : s ≠ []) :
    getStatusFromResources oxr dxr = s := by
  have hne' : s.isEmpty = false := by
    cases s with
    | nil => exact absurd rfl hne
    | cons a b => rfl
  simp [getStatusFromResources, hk, hst, hne']

theorem resolveFromStatus_of (req : ReqModel) (refKey value : String)
    (m : JMap) (h1 : (getXRAndStatus req).1 = m)
    (hget : GetNestedKey m (trimPre "status." refKey) = (value, true)) :
    resolveFromStatus req refKey = Except.ok value := by
  unfold resolveFromStatus
  rw [h1]
  show (match GetNestedKey m (trimPre "status." refKey) with
    | (v, true) => Except.ok v
    | (_, false) =>
      Except.error ("cannot resolve groupRef: " ++ refKey ++ " not found")) =
    Except.ok value
  rw [hget]

/-- C4: status-rooted resolution is desired-first-else-observed.  First
conjunct: when the desired XR status document reads back non-empty, it is
the document used (the Go code consults the desired status only when the
desired XR has a kind; the kind is seeded from the observed XR, so the
guard is that at least one of the two kinds is set, which holds for every
real composite).  Second conjunct: when the desired status is empty or
unreadable, resolution falls back to the observed status document; in
particular a status reference whose trimmed key resolves there to a string
yields that string. -/
theorem c4_status_desired_else_observed (req : ReqModel) (refKey : String) :
    (∀ s : JMap, req.dxr.kind ≠ "" ∨ req.oxr.kind ≠ "" →
      req.dxr.status = Except.ok s → s ≠ [] →
      (getXRAndStatus req).1 = s ∧
      ∀ value, GetNestedKey s (trimPre "status." refKey) = (value, true) →
        resolveFromStatus req refKey = Except.ok value) ∧
    (∀ m : JMap,
      req.dxr.status = Except.ok [] ∨ req.dxr.status = Except.error () →
      req.oxr.status = Except.ok m →
      (getXRAndStatus req).1 = m ∧
      ∀ value, GetNestedKey m (trimPre "status." refKey) = (value, true) →
        resolveFromStatus req refKey = Except.ok value) := by
  constructor
  · intro s hkinds hst hne
    have hk' : (initializeAndCopyData req.oxr req.dxr).kind ≠ "" := by
      rw [initializeAndCopyData_kind]
      by_cases h : req.dxr.kind = ""
      · rw [if_pos h]
        rcases hkinds with hx | hx
        · exact absurd h hx
        · exact hx
      · rw [if_neg h]
        exact h
    have hst' : (initializeAndCopyData req.oxr req.dxr).status =
        Except.ok s := by
      rw [initializeAndCopyData_status]
      exact hst
    have h1 : (getXRAndStatus req).1 = s := by
      unfold getXRAndStatus
      exact getStatusFromResources_desired req.oxr _ s hk' hst' hne
    exact ⟨h1, fun value hget => resolveFromStatus_of req refKey value s h1 hget⟩
  · intro m hdes hobs
    have hds' : (initializeAndCopyData req.oxr req.dxr).status = Except.ok [] ∨
        (initializeAndCopyData req.oxr req.dxr).status = Except.error () := by
      rw [initializeAndCopyData_status]
      exact hdes
    have h1 : (getXRAndStatus req).1 = m := by
      unfold getXRAndStatus
      exact getStatusFromResources_fallback req.oxr _ m hds' hobs
    exact ⟨h1, fun value hget => resolveFromStatus_of req refKey value m h1 hget⟩

/-- Witness for C4, exercising both branches: a non-empty desired status
wins over the observed one, and with the desired status empty the spec's
fallback scenario — observed status `{"azResourceGraphQuery": "Q"}` —
resolves to `"Q"`. -/
theorem c4_status_desired_else_observed_witness :
    resolveFromStatus
      ⟨⟨"XR", Except.ok [("k", JVal.str "old")], Except.ok []⟩,
       ⟨"XR", Except.ok [("k", JVal.str "fromDesired")], Except.ok []⟩,
       [], Except.ok JVal.null⟩ "status.k" = Except.ok "fromDesired" ∧
    resolveFromStatus
      ⟨⟨"XR", Except.ok [("azResourceGraphQuery", JVal.str "Q")], Except.ok []⟩,
       ⟨"", Except.ok [], Except.ok []⟩, [], Except.ok JVal.null⟩
      "status.azResourceGraphQuery" = Except.ok "Q" :=
  ⟨((c4_status_desired_else_observed
      ⟨⟨"XR", Except.ok [("k", JVal.str "old")], Except.ok []⟩,
       ⟨"XR", Except.ok [("k", JVal.str "fromDesired")], Except.ok []⟩,
       [], Except.ok JVal.null⟩ "status.k").1
      [("k", JVal.str "fromDesired")] (Or.inl (by simp)) rfl
      (List.cons_ne_nil _ _)).2 "fromDesired" rfl,
   ((c4_status_desired_else_observed
      ⟨⟨"XR", Except.ok [("azResourceGraphQuery", JVal.str "Q")], Except.ok []⟩,
       ⟨"", Except.ok [], Except.ok []⟩, [], Except.ok JVal.null⟩
      "status.azResourceGraphQuery").2
      [("azResourceGraphQuery", JVal.str "Q")] (Or.inl rfl) rfl).2 "Q" rfl⟩

theorem trimPre_of_data (pre s : String) (t : List Char)
    (h : s.data = pre.data ++ t) : trimPre pre s = String.mk t := by
  have hp : hasPre pre s = true := by
    unfold hasPre
    rw [h]
    exact hasPreL_append _ _
  unfold trimPre
  rw [if_pos hp, h, List.drop_left]

theorem setParts_fresh_cons (m : JMap) (k : String) (qs : List String)
    (v : JVal) (hne : qs ≠ []) (hfresh : jfind m k = none) :
    setParts m (k :: qs) v = (none, jset m k (JVal.obj (setParts [] qs v).2)) := by
  cases qs with
  | nil => exact absurd rfl hne
  | cons q1 qs1 =>
    rw [setParts, hfresh]
    show ((setParts [] (q1 :: qs1) v).1,
      jset m k (JVal.obj (setParts [] (q1 :: qs1) v).2)) =
      (none, jset m k (JVal.obj (setParts [] (q1 :: qs1) v).2))
    rw [setParts_fresh_ok (q1 :: qs1) v]

/-- C8: publishing a result value to a bracket-notation context target
stores the value under the single top-level key written literally inside
the brackets (dots, slashes and any other bracket-free characters taken
verbatim), nested under the remaining path segments, while every
pre-existing top-level context key other than the bracket key is preserved
unchanged. -/
theorem c8_publish_bracket_context (k rest : String) (ctx : JMap) (v : JVal)
    (qs : List String) (hk : k.data ≠ [])
    (hsafe : ∀ c ∈ k.data, notBr c = true)
    (hqs : scanSegs rest.data = qs) (hqsne : qs ≠ [])
    (hfresh : jfind ctx k = none) :
    ∃ m', putQueryResultToContext ctx ("context.[" ++ k ++ "]." ++ rest) v =
        Except.ok (jset ctx k (JVal.obj m')) ∧
      getNestedVal (JVal.obj m') qs = some v ∧
      ∀ k2, k2 ≠ k → jfind (jset ctx k (JVal.obj m')) k2 = jfind ctx k2 := by
  have hdata : ("context.[" ++ k ++ "]." ++ rest).data =
      "context.".data ++ ('[' :: (k.data ++ ']' :: '.' :: rest.data)) := by
    have h1 : ("context.[" ++ k ++ "]." ++ rest).data =
        "context.[".data ++ k.data ++ "].".data ++ rest.data := rfl
    have h2 : ("context.[".data : List Char) = "context.".data ++ ['['] := rfl
    have h3 : ("].".data : List Char) = [']', '.'] := rfl
    rw [h1, h2, h3]
    simp [List.append_assoc]
  have htrim : trimPre "context." ("context.[" ++ k ++ "]." ++ rest) =
      String.mk ('[' :: (k.data ++ ']' :: '.' :: rest.data)) :=
    trimPre_of_data _ _ _ hdata
  have hmkdata : (String.mk ('[' :: (k.data ++ ']' :: '.' :: rest.data))).data =
      '[' :: (k.data ++ ']' :: '.' :: rest.data) := rfl
  have hasK : k.data.asString = k := rfl
  have hscan : scanSegs ('[' :: (k.data ++ ']' :: '.' :: rest.data)) = k :: qs := by
    rw [scanSegs_bracket k.data ('.' :: rest.data) hk hsafe, scanSegs_dot, hqs, hasK]
  have hparse : ParseNestedKey
      (trimPre "context." ("context.[" ++ k ++ "]." ++ rest)) =
      Except.ok (k :: qs) := by
    unfold ParseNestedKey
    rw [htrim, hmkdata, hscan]
    rw [if_neg (by simp)]
  have hset : SetNestedKey ctx
      (trimPre "context." ("context.[" ++ k ++ "]." ++ rest)) v =
      (none, jset ctx k (JVal.obj (setParts [] qs v).2)) := by
    unfold SetNestedKey
    rw [hparse]
    exact setParts_fresh_cons ctx k qs v hqsne hfresh
  refine ⟨(setParts [] qs v).2, ?_, ?_, ?_⟩
  · unfold putQueryResultToContext
    show (match SetNestedKey ctx
        (trimPre "context." ("context.[" ++ k ++ "]." ++ rest)) v with
      | (some e, _) => Except.error ("failed to update context key: " ++ e)
      | (none, updated) => Except.ok updated) =
      Except.ok (jset ctx k (JVal.obj (setParts [] qs v).2))
    rw [hset]
  · exact setParts_get qs [] _ v hqsne
      (by rw [← setParts_fresh_ok qs v])
  · intro k2 hk2
    exact jfind_jset_ne ctx k k2 _ hk2

/-- Witness for C8: the spec's publish-to-context scenario with the
annotation-style bracket key, one pre-existing unrelated context key and
the value `{"a": 1}`. -/
theorem c8_publish_bracket_context_witness :
    ∃ m', putQueryResultToContext [("other", JVal.str "keep")]
        ("context.[" ++ "apiextensions.crossplane.io/environment" ++ "]." ++
          "result") (JVal.obj [("a", JVal.num 1)]) =
        Except.ok (jset [("other", JVal.str "keep")]
          "apiextensions.crossplane.io/environment" (JVal.obj m')) ∧
      getNestedVal (JVal.obj m') ["result"] =
        some (JVal.obj [("a", JVal.num 1)]) ∧
      ∀ k2, k2 ≠ "apiextensions.crossplane.io/environment" →
        jfind (jset [("other", JVal.str "keep")]
          "apiextensions.crossplane.io/environment" (JVal.obj m')) k2 =
        jfind [("other", JVal.str "keep")] k2 :=
  c8_publish_bracket_context "apiextensions.crossplane.io/environment"
    "result" [("other", JVal.str "keep")] (JVal.obj [("a", JVal.num 1)])
    ["result"] (by decide) (by decide) rfl (by decide) rfl

theorem runFunction_valid_eq (req : ReqModel) (inp : FnInput)
    (hv : isValidTarget inp.target = true) :
    runFunction req inp =
      (match shouldSkipQuery req inp with
      | (true, evs) => (Outcome.skipped, evs)
      | (false, evs) =>
        match processReferences req inp with
        | (false, _, evs') => (Outcome.fatal, evs ++ evs')
        | (true, inp', evs') =>
          match req.queryOutcome with
          | Except.error _ => (Outcome.fatal, evs ++ evs' ++ [Ev.query])
          | Except.ok results =>
            match processResults req inp' results with
            | Except.error _ =>
              (Outcome.fatal, (evs ++ evs' ++ [Ev.query]) ++ [Ev.publish])
            | Except.ok _ =>
              (Outcome.success, (evs ++ evs' ++ [Ev.query]) ++ [Ev.publish])) := by
  unfold runFunction
  rw [hv]
  rfl

theorem runFunction_invalid (req : ReqModel) (inp : FnInput)
    (hv : isValidTarget inp.target = false) :
    runFunction req inp = (Outcome.fatal, []) := by
  unfold runFunction
  rw [hv]
  rfl

theorem shouldSkipQuery_trace (req : ReqModel) (inp : FnInput) :
    ∀ e ∈ (shouldSkipQuery req inp).2, e = Ev.skipCheck := by
  cases hopt : inp.skipQueryWhenTargetHasData with
  | none => simp [shouldSkipQuery, hopt]
  | some b =>
    cases b with
    | false => simp [shouldSkipQuery, hopt]
    | true =>
      by_cases h2 : hasPre "status." inp.target = true
      · simp [shouldSkipQuery, hopt, h2]
      · by_cases h3 : hasPre "context." inp.target = true
        · simp [shouldSkipQuery, hopt, h2, h3]
        · simp [shouldSkipQuery, hopt, h2, h3]

theorem shouldSkipQuery_flag_off (req : ReqModel) (inp : FnInput)
    (h : inp.skipQueryWhenTargetHasData = none ∨
      inp.skipQueryWhenTargetHasData = some false) :
    shouldSkipQuery req inp = (false, []) := by
  rcases h with h | h <;> simp [shouldSkipQuery, h]

theorem shouldSkipQuery_status_skip (req : ReqModel) (inp : FnInput)
    (hf : inp.skipQueryWhenTargetHasData = some true)
    (hst : hasPre "status." inp.target = true)
    (hd : (targetHasData (getXRAndStatus req).1
      (trimPre "status." inp.target)).1 = true) :
    shouldSkipQuery req inp = (true, [Ev.skipCheck]) := by
  simp [shouldSkipQuery, hf, hst, checkStatusTargetHasData, hd]

theorem shouldSkipQuery_context_skip (req : ReqModel) (inp : FnInput)
    (hf : inp.skipQueryWhenTargetHasData = some true)
    (hst : hasPre "status." inp.target = false)
    (hct : hasPre "context." inp.target = true)
    (hd : (targetHasData req.ctx (trimPre "context." inp.target)).1 = true) :
    shouldSkipQuery req inp = (true, [Ev.skipCheck]) := by
  simp [shouldSkipQuery, hf, hst, hct, checkContextTargetHasData, hd]

theorem processGroupRef_trace (req : ReqModel) (inp : FnInput) :
    ∀ e ∈ (processGroupRef req inp).2.2, e = Ev.refResolve := by
  unfold processGroupRef
  cases inp.groupRef with
  | none => simp
  | some r =>
    by_cases hr : r = ""
    · simp [hr]
    · cases hres : resolveGroupRef req r <;> simp [hr, hres]

theorem processGroupsRef_trace (req : ReqModel) (inp : FnInput) :
    ∀ e ∈ (processGroupsRef req inp).2.2, e = Ev.refResolve := by
  unfold processGroupsRef
  cases inp.groupsRef with
  | none => simp
  | some r =>
    by_cases hr : r = ""
    · simp [hr]
    · cases hres : resolveStringArrayRef req r "groupsRef" <;> simp [hr, hres]

theorem processUsersRef_trace (req : ReqModel) (inp : FnInput) :
    ∀ e ∈ (processUsersRef req inp).2.2, e = Ev.refResolve := by
  unfold processUsersRef
  cases inp.usersRef with
  | none => simp
  | some r =>
    by_cases hr : r = ""
    · simp [hr]
    · cases hres : resolveStringArrayRef req r "usersRef" <;> simp [hr, hres]

theorem processServicePrincipalsRef_trace (req : ReqModel) (inp : FnInput) :
    ∀ e ∈ (processServicePrincipalsRef req inp).2.2, e = Ev.refResolve := by
  unfold processServicePrincipalsRef
  cases inp.servicePrincipalsRef with
  | none => simp
  | some r =>
    by_cases hr : r = ""
    · simp [hr]
    · cases hres : resolveStringArrayRef req r "servicePrincipalsRef" <;>
        simp [hr, hres]

theorem processReferences_trace (req : ReqModel) (inp : FnInput) :
    ∀ e ∈ (processReferences req inp).2.2, e = Ev.refResolve := by
  unfold processReferences
  by_cases h1 : inp.queryType = "GroupMembership"
  · rw [if_pos h1]; exact processGroupRef_trace req inp
  · rw [if_neg h1]
    by_cases h2 : inp.queryType = "GroupObjectIDs"
    · rw [if_pos h2]; exact processGroupsRef_trace req inp
    · rw [if_neg h2]
      by_cases h3 : inp.queryType = "UserValidation"
      · rw [if_pos h3]; exact processUsersRef_trace req inp
      · rw [if_neg h3]
        by_cases h4 : inp.queryType = "ServicePrincipalDetails"
        · rw [if_pos h4]; exact processServicePrincipalsRef_trace req inp
        · rw [if_neg h4]; simp

/-- C2 (counterexample): the claim requires reference resolution to
complete before the skip check, and a resolution failure to fail the
invocation before any skip decision.  In the code the skip check runs
first: with the skip flag on, a status target that already has data, and a
`groupRef` that cannot be resolved, the invocation reports a skipped
outcome after evaluating only the skip check — the unresolvable reference
is never touched and causes no failure. -/
theorem c2_skip_before_refs_counterexample :
    runFunction
      ⟨⟨"XR", Except.ok [("x", JVal.str "data")], Except.ok []⟩,
       ⟨"", Except.ok [], Except.ok []⟩, [], Except.ok JVal.null⟩
      ⟨"GroupMembership", "status.x", some true, none, some "status.missing",
        [], none, [], none, [], none⟩ = (Outcome.skipped, [Ev.skipCheck]) ∧
    (∃ e, resolveGroupRef
      ⟨⟨"XR", Except.ok [("x", JVal.str "data")], Except.ok []⟩,
       ⟨"", Except.ok [], Except.ok []⟩, [], Except.ok JVal.null⟩
      "status.missing" = Except.error e) :=
  ⟨rfl, ⟨"cannot resolve groupRef: status.missing not found", rfl⟩⟩

/-- C2 (amended): per invocation the engine steps are ordered as skip
check, then reference resolution, then query and publication — reference
resolution completes before the external query (not before the skip
check), and a reference-resolution failure makes the invocation fail
before the query runs (but after the skip decision). -/
theorem c2_step_ordering (req : ReqModel) (inp : FnInput) :
    (∃ a b c, (runFunction req inp).2 = a ++ b ++ c ∧
      (∀ e ∈ a, e = Ev.skipCheck) ∧ (∀ e ∈ b, e = Ev.refResolve) ∧
      (∀ e ∈ c, e = Ev.query ∨ e = Ev.publish)) ∧
    (isValidTarget inp.target = true →
      (shouldSkipQuery req inp).1 = false →
      (processReferences req inp).1 = false →
      (runFunction req inp).1 = Outcome.fatal ∧
        Ev.query ∉ (runFunction req inp).2) := by
  constructor
  · by_cases hv : isValidTarget inp.target = true
    · rw [runFunction_valid_eq req inp hv]
      cases hss : shouldSkipQuery req inp with
      | mk b evs =>
        have hevs : ∀ e ∈ evs, e = Ev.skipCheck := by
          have h := shouldSkipQuery_trace req inp
          rw [hss] at h
          exact h
        cases b with
        | true => exact ⟨evs, [], [], by simp, hevs, by simp, by simp⟩
        | false =>
          cases hpr : processReferences req inp with
          | mk ok rest =>
            obtain ⟨inp', evs'⟩ := rest
            have hevs' : ∀ e ∈ evs', e = Ev.refResolve := by
              have h := processReferences_trace req inp
              rw [hpr] at h
              exact h
            cases ok with
            | false =>
              exact ⟨evs, evs', [], by simp, hevs, hevs', by simp⟩
            | true =>
              cases hq : req.queryOutcome with
              | error e =>
                exact ⟨evs, evs', [Ev.query], by simp, hevs, hevs', by simp⟩
              | ok results =>
                cases hres : processResults req inp' results with
                | error e =>
                  refine ⟨evs, evs', [Ev.query, Ev.publish], by simp [hres],
                    hevs, hevs', by simp⟩
                | ok m2 =>
                  refine ⟨evs, evs', [Ev.query, Ev.publish], by simp [hres],
                    hevs, hevs', by simp⟩
    · have hv' : isValidTarget inp.target = false := by
        cases h : isValidTarget inp.target with
        | true => exact absurd h hv
        | false => rfl
      rw [runFunction_invalid req inp hv']
      exact ⟨[], [], [], rfl, by simp, by simp, by simp⟩
  · intro hv hskip hrefs
    rw [runFunction_valid_eq req inp hv]
    cases hss : shouldSkipQuery req inp with
    | mk b evs =>
      have hb : b = false := by
        rw [hss] at hskip
        exact hskip
      subst hb
      have hevs : ∀ e ∈ evs, e = Ev.skipCheck := by
        have h := shouldSkipQuery_trace req inp
        rw [hss] at h
        exact h
      cases hpr : processReferences req inp with
      | mk ok rest =>
        obtain ⟨inp', evs'⟩ := rest
        have hok : ok = false := by
          rw [hpr] at hrefs
          exact hrefs
        subst hok
        have hevs' : ∀ e ∈ evs', e = Ev.refResolve := by
          have h := processReferences_trace req inp
          rw [hpr] at h
          exact h
        refine ⟨rfl, ?_⟩
        intro hmem
        simp only [List.mem_append] at hmem
        rcases hmem with h | h
        · exact Ev.noConfusion (hevs _ h)
        · exact Ev.noConfusion (hevs' _ h)

/-- Witness for C2 (amended) at a concrete input: skip flag absent and an
unresolvable `groupRef` — the invocation is fatal and the query never
runs. -/
theorem c2_step_ordering_witness :
    (runFunction
      ⟨⟨"XR", Except.ok [("x", JVal.str "data")], Except.ok []⟩,
       ⟨"", Except.ok [], Except.ok []⟩, [], Except.ok JVal.null⟩
      ⟨"GroupMembership", "status.x", none, none, some "status.missing",
        [], none, [], none, [], none⟩).1 = Outcome.fatal ∧
    Ev.query ∉ (runFunction
      ⟨⟨"XR", Except.ok [("x", JVal.str "data")], Except.ok []⟩,
       ⟨"", Except.ok [], Except.ok []⟩, [], Except.ok JVal.null⟩
      ⟨"GroupMembership", "status.x", none, none, some "status.missing",
        [], none, [], none, [], none⟩).2 :=
  (c2_step_ordering _ _).2 rfl rfl rfl

/-- C7: with the skip flag set to true and a target that already holds
data per the emptiness classifier (status-rooted against the
desired-first-else-observed status document, context-rooted against the
shared context), the invocation reports the skipped outcome with the skip
check as its only engine step — the external query is invoked zero times.
With the flag false or absent, the skip check is never evaluated, and if
reference processing succeeds the query runs. -/
theorem c7_skip_flag_semantics (req : ReqModel) (inp : FnInput) :
    (inp.skipQueryWhenTargetHasData = some true →
      (hasPre "status." inp.target = true →
        (targetHasData (getXRAndStatus req).1
          (trimPre "status." inp.target)).1 = true →
        runFunction req inp = (Outcome.skipped, [Ev.skipCheck])) ∧
      (hasPre "status." inp.target = false →
        hasPre "context." inp.target = true →
        (targetHasData req.ctx (trimPre "context." inp.target)).1 = true →
        runFunction req inp = (Outcome.skipped, [Ev.skipCheck]))) ∧
    ((inp.skipQueryWhenTargetHasData = none ∨
        inp.skipQueryWhenTargetHasData = some false) →
      Ev.skipCheck ∉ (runFunction req inp).2 ∧
      (isValidTarget inp.target = true →
        (processReferences req inp).1 = true →
        Ev.query ∈ (runFunction req inp).2)) := by
  constructor
  · intro hf
    constructor
    · intro hst hd
      have hv : isValidTarget inp.target = true := by
        simp [isValidTarget, hst]
      rw [runFunction_valid_eq req inp hv,
        shouldSkipQuery_status_skip req inp hf hst hd]
    · intro hst hct hd
      have hv : isValidTarget inp.target = true := by
        simp [isValidTarget, hct]
      rw [runFunction_valid_eq req inp hv,
        shouldSkipQuery_context_skip req inp hf hst hct hd]
  · intro hoff
    have hss := shouldSkipQuery_flag_off req inp hoff
    constructor
    · by_cases hv : isValidTarget inp.target = true
      · rw [runFunction_valid_eq req inp hv, hss]
        cases hpr : processReferences req inp with
        | mk ok rest =>
          obtain ⟨inp', evs'⟩ := rest
          have hevs' : ∀ e ∈ evs', e = Ev.refResolve := by
            have h := processReferences_trace req inp
            rw [hpr] at h
            exact h
          cases ok with
          | false =>
            intro hmem
            simp only [List.nil_append] at hmem
            exact Ev.noConfusion (hevs' _ hmem)
          | true =>
            cases hq : req.queryOutcome with
            | error e =>
              intro hmem
              simp only [List.nil_append, List.mem_append,
                List.mem_singleton] at hmem
              rcases hmem with h | h
              · exact Ev.noConfusion (hevs' _ h)
              · exact Ev.noConfusion h
            | ok results =>
              cases hres : processResults req inp' results with
              | error e =>
                show Ev.skipCheck ∉
                  (match processResults req inp' results with
                  | Except.error _ =>
                    (Outcome.fatal, [] ++ evs' ++ [Ev.query] ++ [Ev.publish])
                  | Except.ok _ =>
                    (Outcome.success,
                      [] ++ evs' ++ [Ev.query] ++ [Ev.publish])).2
                rw [hres]
                intro hmem
                simp only [List.nil_append, List.mem_append,
                  List.mem_singleton] at hmem
                rcases hmem with (h | h) | h
                · exact Ev.noConfusion (hevs' _ h)
                · exact Ev.noConfusion h
                · exact Ev.noConfusion h
              | ok m2 =>
                show Ev.skipCheck ∉
                  (match processResults req inp' results with
                  | Except.error _ =>
                    (Outcome.fatal, [] ++ evs' ++ [Ev.query] ++ [Ev.publish])
                  | Except.ok _ =>
                    (Outcome.success,
                      [] ++ evs' ++ [Ev.query] ++ [Ev.publish])).2
                rw [hres]
                intro hmem
                simp only [List.nil_append, List.mem_append,
                  List.mem_singleton] at hmem
                rcases hmem with (h | h) | h
                · exact Ev.noConfusion (hevs' _ h)
                · exact Ev.noConfusion h
                · exact Ev.noConfusion h
      · have hv' : isValidTarget inp.target = false := by
          cases h : isValidTarget inp.target with
          | true => exact absurd h hv
          | false => rfl
        rw [runFunction_invalid req inp hv']
        simp
    · intro hv hrefs
      rw [runFunction_valid_eq req inp hv, hss]
      cases hpr : processReferences req inp with
      | mk ok rest =>
        obtain ⟨inp', evs'⟩ := rest
        have hok : ok = true := by
          rw [hpr] at hrefs
          exact hrefs
        subst hok
        cases hq : req.queryOutcome with
        | error e => simp
        | ok results =>
          cases hres : processResults req inp' results with
          | error e => simp [hres]
          | ok m2 => simp [hres]

/-- Witness for C7: the spec's skip scenario — skip flag true, target
`status.groupMembers` already holding a nonempty array — reports the
skipped outcome with no query step. -/
theorem c7_skip_flag_semantics_witness :
    runFunction
      ⟨⟨"XR", Except.ok [("groupMembers", JVal.arr [JVal.str "m1"])],
          Except.ok []⟩,
       ⟨"", Except.ok [], Except.ok []⟩, [], Except.ok JVal.null⟩
      ⟨"GroupMembership", "status.groupMembers", some true, some "g", none,
        [], none, [], none, [], none⟩ = (Outcome.skipped, [Ev.skipCheck]) :=
  ((c7_skip_flag_semantics _ _).1 rfl).1 rfl rfl
